import Mathlib

/-!
# AgentFlow core: shallow embedding and verification

This file embeds the core control flow of the AgentFlow framework in Lean 4 and
proves properties of it.  The embedding follows the Python source:

* `framework/agents/base.py` — `BaseAgent`, `ReActAgent.run`,
  `FunctionCallingAgent.run`, `ConversationalAgent.run`, `BaseAgent.reset`;
* `framework/orchestration/base.py` — `BaseOrchestrator._format_input`,
  `SequentialOrchestrator.execute`, `DAGOrchestrator.execute`;
* `framework/tools/base.py` — `FunctionTool.execute`.

Python dynamic values are modelled by the inductive type `Value`; Python dicts
are association lists in insertion order (updates keep the original position,
as CPython dicts do).  Exceptions are modelled with `Except String`; external
calls (the completion provider, `json.loads`, tool capability bodies) are
parameters of the embedding, so theorems quantify over their behavior.
-/

namespace AgentFlow

/-- A Python runtime value: `None`, an integer, a string, or a dict with
string keys (in insertion order).  This is the value universe the framework's
core manipulates. -/
inductive Value where
  | vnone : Value
  | vint : Int → Value
  | vstr : String → Value
  | vdict : List (String × Value) → Value
deriving Repr

/-- Python `repr` of a `Value`, used inside the rendering of dicts
(CPython renders dict entries with `repr`). -/
def valueRepr : Value → String
  | .vnone => "None"
  | .vint n => toString n
  | .vstr s => "'" ++ s ++ "'"
  | .vdict es => "\x7b" ++ go es ++ "\x7d"
where
  /-- Renders dict entries `'k': repr v` separated by `", "`. -/
  go : List (String × Value) → String
  | [] => ""
  | [(k, v)] => "'" ++ k ++ "': " ++ valueRepr v
  | (k, v) :: rest => "'" ++ k ++ "': " ++ valueRepr v ++ ", " ++ go rest

/-- Python `str` of a `Value`: identity on strings, `repr`-style rendering on
dicts, decimal on integers, `"None"` on `None`. -/
def valueToString : Value → String
  | .vstr s => s
  | v => valueRepr v

/-- Association-list lookup, the model of Python `d[k]` / `d.get(k)`:
first entry whose key equals `k`. -/
def alookup (l : List (String × α)) (k : String) : Option α :=
  (l.find? (fun p => p.1 = k)).map (fun p => p.2)

/-- Membership of a key, the model of Python `k in d`. -/
def akeys (l : List (String × α)) : List String := l.map (fun p => p.1)

/-- Dict update `d[k] = v`: overwrite in place if the key exists (CPython keeps
the original position), otherwise append at the end. -/
def ainsert (l : List (String × α)) (k : String) (v : α) : List (String × α) :=
  if (l.find? (fun p => p.1 = k)).isSome then
    l.map (fun p => if p.1 = k then (k, v) else p)
  else
    l ++ [(k, v)]

/-- `BaseOrchestrator._format_input`'s test
`isinstance(input_data, dict) and "role" in input_data and "content" in input_data`. -/
def isMessageDict : Value → Bool
  | .vdict es => (akeys es).contains "role" && (akeys es).contains "content"
  | _ => false

/-- `BaseOrchestrator._format_input` (orchestration/base.py lines 40-52):
a dict that already has `role` and `content` keys is returned unchanged;
any other value is wrapped as a user message with stringified content
(`str` is the identity on strings). -/
def formatInput (inputData : Value) : Value :=
  if isMessageDict inputData then
    inputData
  else
    .vdict [("role", .vstr "user"), ("content", .vstr (valueToString inputData))]

/-! ## Messages and tools (`framework/core/base.py`, `framework/tools/base.py`) -/

/-- One entry of an Assistant message's `tool_calls` list, wire form
`\x7bid, function: \x7bname, arguments: serialized\x7d\x7d`
(`framework/core/base.py`, §6 of the design).  `arguments` is the serialized
argument payload handed to `json.loads`. -/
structure ToolCall where
  id : String
  name : String
  arguments : String
deriving Repr, DecidableEq

/-- A conversation message `\x7brole, content, tool_call_id?, tool_calls?\x7d`.
A missing `tool_calls` key and an empty list are both modelled by `[]`, as in
`response.get("tool_calls", [])`; a missing `tool_call_id` is `none`. -/
structure Msg where
  role : String
  content : String
  toolCallId : Option String := none
  toolCalls : List ToolCall := []
deriving Repr, DecidableEq

/-- `ToolSpec` (core/base.py): the declared schema of a tool.  Parameter
descriptions are irrelevant to control flow and omitted; the required
parameter names drive `FunctionTool.execute` validation. -/
structure ToolSpec where
  name : String
  description : String := ""
  requiredParameters : List String := []
deriving Repr, DecidableEq

/-- A registered tool: its spec plus its `execute` capability.  `execute`
receives the value produced by `json.loads` on the argument payload and
either returns a result or raises (modelled by `Except String`). -/
structure ToolImpl where
  spec : ToolSpec
  exec : Value → Except String Value

/-- `FunctionTool.execute` (tools/base.py lines 107-118): raise
`ValueError("Required parameter <p> missing")` at the first required
parameter name absent from the payload, otherwise call the wrapped function
(whose own failures propagate as exceptions). -/
def FunctionTool.execute (required : List String)
    (func : List (String × Value) → Except String Value)
    (parameters : List (String × Value)) : Except String Value :=
  match required.find? (fun p => (alookup parameters p).isNone) with
  | some p => .error ("Required parameter " ++ p ++ " missing")
  | none => func parameters

/-! ## The tool-using agent decision loop (`framework/agents/base.py`)

`ReActAgent.run` (lines 142-229) and `FunctionCallingAgent.run`
(lines 251-338) have character-identical bodies (the classes differ only in
comments), so one embedding serves both; `functionCallingRun` below is that
same function under the second source name.

The completion provider, `json.loads` and the tool registry are external and
appear as parameters. -/

/-- `AgentConfig` (core/base.py): the fields the decision loop reads. -/
structure AgentConfig where
  systemPrompt : String
  tools : List String := []
  maxIterations : Nat := 10
deriving Repr, DecidableEq

/-- The mutable per-agent data: the message memory (`MessageMemory`, an
append-only list) and the `iterations` entry of `self._state`. -/
structure AgentState where
  messages : List Msg
  iterations : Nat
deriving Repr, DecidableEq

/-- The state of a freshly constructed agent (`BaseAgent.__init__`,
lines 18-26): empty memory, iteration counter 0; the system message is only
seeded lazily by `run`. -/
def initialAgentState : AgentState := { messages := [], iterations := 0 }

/-- The system message built by `BaseAgent._add_system_message`. -/
def systemMessage (cfg : AgentConfig) : Msg :=
  { role := "system", content := cfg.systemPrompt }

/-- `BaseAgent.reset` (lines 46-50): clear the memory, zero the counters, then
re-seed the system message.  The result does not depend on the prior state. -/
def resetAgentState (cfg : AgentConfig) : AgentState :=
  { messages := [systemMessage cfg], iterations := 0 }

/-- `BaseAgent._get_tools` (lines 62-75): resolve each configured tool name
against the registry, silently skipping names that are not registered. -/
def getTools (registry : List ToolImpl) (toolNames : List String) : List ToolImpl :=
  toolNames.filterMap (fun n => registry.find? (fun t => t.spec.name = n))

/-- The input normalization at the top of every `run`:
`if isinstance(input_message, str): input_message = \x7b"role": "user", "content": input_message\x7d`. -/
def normalizeInput : Sum String Msg → Msg
  | .inl s => { role := "user", content := s }
  | .inr m => m

/-- Processing of one tool call inside the loop (agents/base.py lines
189-223): resolve the name against the active tool list; unresolved names
become the `"Error: Tool <name> not found"` message; otherwise parse the
arguments and execute, catching every failure and rendering it as
`"Error: <str(e)>"`; successes are stringified.  Every outcome is a
Tool-role message carrying the call's id. -/
def processToolCall (jsonLoads : String → Except String Value)
    (tools : List ToolImpl) (tc : ToolCall) : Msg :=
  match tools.find? (fun t => t.spec.name = tc.name) with
  | none =>
      { role := "tool", toolCallId := some tc.id
        content := "Error: Tool " ++ tc.name ++ " not found" }
  | some tool =>
      match (jsonLoads tc.arguments).bind tool.exec with
      | .ok result =>
          { role := "tool", toolCallId := some tc.id
            content := valueToString result }
      | .error e =>
          { role := "tool", toolCallId := some tc.id
            content := "Error: " ++ e }

/-- Outcome of the decision loop: the memory contents, the final value of the
local `iterations` counter, the number of completion calls issued to the
provider, and the final response (`none` when the iteration budget ran out). -/
structure LoopResult where
  messages : List Msg
  iterations : Nat
  calls : Nat
  final : Option Msg
deriving Repr, DecidableEq

/-- The `while iterations < max_iterations` loop of `ReActAgent.run`
(lines 170-226).  The fuel argument is `max_iterations - iterations`, so the
guard `iterations < max_iterations` is `fuel > 0`; each pass increments the
counter, issues exactly one completion call (`_run_iteration`, which passes
the active tool specs), and either terminates on a response without tool
calls or appends the response and one Tool message per requested call. -/
def agentLoop (provider : List Msg → List ToolSpec → Msg)
    (jsonLoads : String → Except String Value) (tools : List ToolImpl) :
    Nat → Nat → Nat → List Msg → LoopResult
  | 0, iterations, calls, messages =>
      { messages := messages, iterations := iterations, calls := calls, final := none }
  | fuel + 1, iterations, calls, messages =>
      let iterations := iterations + 1
      let response := provider messages (tools.map (fun t => t.spec))
      let calls := calls + 1
      if response.toolCalls.isEmpty then
        { messages := messages ++ [response], iterations := iterations,
          calls := calls, final := some response }
      else
        agentLoop provider jsonLoads tools fuel iterations calls
          (messages ++ [response] ++ response.toolCalls.map (processToolCall jsonLoads tools))

/-- Outcome of a whole `run` call: the post-run agent data, the returned
final response, and the number of completion calls issued. -/
structure RunOutcome where
  state : AgentState
  final : Option Msg
  calls : Nat
deriving Repr, DecidableEq

/-- `ReActAgent.run` (agents/base.py lines 142-229): seed the system message
if absent, normalize and append the input, resolve the active tool set
(explicit argument, else the registry lookup of the configured names), then
iterate.  `self._state["iterations"]` is written once per loop pass, so after
the run it holds the loop's counter unless the loop never ran. -/
def reactRun (cfg : AgentConfig) (provider : List Msg → List ToolSpec → Msg)
    (jsonLoads : String → Except String Value) (registry : List ToolImpl)
    (toolsArg : Option (List ToolImpl)) (input : Sum String Msg)
    (st : AgentState) : RunOutcome :=
  let messages :=
    if st.messages.any (fun m => m.role = "system") then st.messages
    else st.messages ++ [systemMessage cfg]
  let messages := messages ++ [normalizeInput input]
  let tools :=
    match toolsArg with
    | some ts => ts
    | none => getTools registry cfg.tools
  let res := agentLoop provider jsonLoads tools cfg.maxIterations 0 0 messages
  { state := { messages := res.messages,
               iterations := if res.iterations = 0 then st.iterations else res.iterations },
    final := res.final,
    calls := res.calls }

/-- `FunctionCallingAgent.run` (agents/base.py lines 251-338): the body is a
verbatim copy of `ReActAgent.run`, so the embedding is the same function. -/
def functionCallingRun := reactRun

/-- `ConversationalAgent.run` (agents/base.py lines 91-122): seed the system
message if absent, append the normalized input, issue exactly one completion
call (without tools) and return it as final. -/
def conversationalRun (cfg : AgentConfig) (provider : List Msg → Msg)
    (input : Sum String Msg) (st : AgentState) : AgentState × Msg :=
  let messages :=
    if st.messages.any (fun m => m.role = "system") then st.messages
    else st.messages ++ [systemMessage cfg]
  let messages := messages ++ [normalizeInput input]
  let response := provider messages
  ({ messages := messages ++ [response], iterations := st.iterations }, response)

/-! ## Orchestration (`framework/orchestration/base.py`)

The scheduler treats each agent as a black box "input to output" function
(§2 of the design); agents are resolved from `self._agents` by id, so the
agent table is a partial function `String → Option (Value → Value)`
(deterministic stub agents, as in the testable properties of §8). -/

/-- A resolved agent as the scheduler sees it: a deterministic total
input-to-output function. -/
def StubAgent : Type := Value → Value

/-- The recursion inside `SequentialOrchestrator.execute` (lines 67-76):
run each agent in order on the current value, replacing the current value by
the agent's raw output; an unresolvable id raises
`ValueError("Agent <id> not found")`.  The first component records, in order,
the exact value each executed agent received (instrumentation used to state
the claims; the second component is the Python return value). -/
def seqRun (agents : String → Option StubAgent) :
    List String → Value → List Value → List Value × Except String Value
  | [], current, received => (received, .ok current)
  | agentId :: rest, current, received =>
      match agents agentId with
      | none => (received, .error ("Agent " ++ agentId ++ " not found"))
      | some run => seqRun agents rest (run current) (received ++ [current])

/-- `SequentialOrchestrator.execute` (lines 57-76): an empty sequence raises
`ValueError("Workflow must specify a sequence of agent IDs")`; otherwise the
workflow input is normalized once by `_format_input` and threaded through the
agents; the last agent's raw output is returned unmodified. -/
def sequentialExecute (agents : String → Option StubAgent)
    (sequence : List String) (inputData : Value) :
    List Value × Except String Value :=
  if sequence.isEmpty then
    ([], .error "Workflow must specify a sequence of agent IDs")
  else
    seqRun agents sequence (formatInput inputData) []

/-- One node of the `dag` map: `\x7bdependencies: [...], input_mapping?: \x7b...\x7d\x7d`.
A missing `input_mapping` key and an empty mapping are both falsy in
`if agent_input:`, so both are modelled by `[]`. -/
structure DagNode where
  dependencies : List String := []
  inputMapping : List (String × String) := []
deriving Repr, DecidableEq

/-- The DAG workflow dictionary: the node map in insertion (scan) order plus
the `entry_point` and `final_node` entries, which may be absent (`none`) or
present; Python's `if not entry_point:` also treats the empty string as
missing. -/
structure DagWorkflow where
  dag : List (String × DagNode)
  entryPoint : Option String := none
  finalNode : Option String := none
deriving Repr, DecidableEq

/-- Truthiness of an optional string field read with `workflow.get(...)`. -/
def optTruthy : Option String → Bool
  | none => false
  | some s => !s.isEmpty

/-- `mapping.split(".", 1)` when `"." in mapping`: the part before the first
dot and the rest. -/
def splitFirstDot (s : String) : Option (String × String) :=
  go [] s.toList
where
  /-- Scans for the first `'.'`, accumulating the reversed prefix. -/
  go (acc : List Char) : List Char → Option (String × String)
  | [] => none
  | c :: rest =>
      if c = '.' then some (⟨acc.reverse⟩, ⟨rest⟩)
      else go (c :: acc) rest

/-- The `input_mapping` resolution loop (orchestration/base.py lines
124-140): for each `input_key: mapping` entry in order, a dotted mapping
`node.field` takes the named field of that node's result (falling back to
the whole result when the result is not a dict or lacks the field), a bare
mapping takes the whole result; entries whose source node is not yet a key
of `results` are omitted. -/
def resolveMapping (results : List (String × Value)) :
    List (String × String) → List (String × Value)
  | [] => []
  | (inputKey, mapping) :: rest =>
      let tail := resolveMapping results rest
      match splitFirstDot mapping with
      | some (sourceNode, sourceKey) =>
          match alookup results sourceNode with
          | some sourceValue =>
              match sourceValue with
              | .vdict es =>
                  match alookup es sourceKey with
                  | some v => (inputKey, v) :: tail
                  | none => (inputKey, sourceValue) :: tail
              | _ => (inputKey, sourceValue) :: tail
          | none => tail
      | none =>
          match alookup results mapping with
          | some v => (inputKey, v) :: tail
          | none => tail

/-- The input a node's agent receives (lines 120-155): a non-empty input
mapping is resolved against `results` and the resulting dict normalized;
otherwise the first dependency's raw result (all dependencies are present
when this runs) or, with no dependencies, the raw workflow input, normalized. -/
def dagNodeInput (results : List (String × Value)) (inputData : Value)
    (node : DagNode) : Value :=
  if !node.inputMapping.isEmpty then
    formatInput (.vdict (resolveMapping results node.inputMapping))
  else
    match node.dependencies.filterMap (alookup results) with
    | [] => formatInput inputData
    | r :: _ => formatInput r

/-- Record of one node execution: the node id, the dependency list checked
for it, and the full `results` dictionary at the moment of execution
(instrumentation used to state invariants; the executed keys are
`snapshot.map fst`). -/
structure DagTraceEntry where
  node : String
  deps : List String
  snapshot : List (String × Value)

/-- The ephemeral execution context of one `DAGOrchestrator.execute` run:
the `results` map, the execution trace (whose node ids are exactly the
`processed_nodes` set, in execution order), and the pending exception
(`none` while no `ValueError` has been raised). -/
structure DagState where
  results : List (String × Value)
  trace : List DagTraceEntry
  err : Option String := none

/-- The ids of the processed nodes of a state, in execution order. -/
def DagState.processed (st : DagState) : List String :=
  st.trace.map (fun e => e.node)

/-- The body of the scan over one `dag.items()` entry (lines 107-159): skip
processed nodes; when every dependency id is a key of `results`, resolve the
agent (raising `ValueError("Agent <id> not found")` if absent), compute the
node's input, run the agent, store the output under the node's id and mark
the node processed.  A pending exception makes the rest of the run a no-op. -/
def dagProcessNode (agents : String → Option StubAgent) (inputData : Value)
    (st : DagState) (nodeId : String) (node : DagNode) : DagState :=
  if st.err.isSome then st
  else if st.processed.contains nodeId then st
  else if node.dependencies.all (fun dep => (alookup st.results dep).isSome) then
    match agents nodeId with
    | none => { st with err := some ("Agent " ++ nodeId ++ " not found") }
    | some run =>
        let result := run (dagNodeInput st.results inputData node)
        { results := ainsert st.results nodeId result,
          trace := st.trace ++ [{ node := nodeId, deps := node.dependencies,
                                  snapshot := st.results }],
          err := none }
  else st

/-- One full scan round over `dag.items()` in insertion order, with results
written by earlier entries of the same round immediately visible to later
entries (the same-round visibility noted in §9 of the design). -/
def dagPass (agents : String → Option StubAgent) (inputData : Value)
    (dag : List (String × DagNode)) (st : DagState) : DagState :=
  match dag with
  | [] => st
  | (nodeId, node) :: rest =>
      dagPass agents inputData rest (dagProcessNode agents inputData st nodeId node)

/-- The `while steps < max_steps and len(processed_nodes) < len(dag)` loop
(line 103): the fuel is `max_steps - steps`; a raised exception exits the
loop. -/
def dagLoop (agents : String → Option StubAgent) (inputData : Value)
    (dag : List (String × DagNode)) : Nat → DagState → DagState
  | 0, st => st
  | fuel + 1, st =>
      if st.err.isNone && st.processed.length < dag.length then
        dagLoop agents inputData dag fuel (dagPass agents inputData dag st)
      else st

/-- `DAGOrchestrator.execute` (lines 81-169), returning the final execution
context together with the Python outcome (result value or raised
`ValueError` text).  An empty node map or a falsy entry point raise before
anything runs; `results` is seeded with the normalized workflow input under
the entry point; after the rounds, a falsy `final_node` raises, and a final
node absent from `results` raises `"Final node <id> was not processed"`. -/
def dagExecuteRun (agents : String → Option StubAgent) (wf : DagWorkflow)
    (maxSteps : Nat) (inputData : Value) : DagState × Except String Value :=
  if wf.dag.isEmpty then
    ({ results := [], trace := [] }, .error "Workflow must specify a DAG structure")
  else if !optTruthy wf.entryPoint then
    ({ results := [], trace := [] }, .error "Workflow must specify an entry point")
  else
    let entry := wf.entryPoint.getD ""
    let st0 : DagState := { results := [(entry, formatInput inputData)], trace := [] }
    let st := dagLoop agents inputData wf.dag maxSteps st0
    match st.err with
    | some e => (st, .error e)
    | none =>
        if !optTruthy wf.finalNode then
          (st, .error "Workflow must specify a final node")
        else
          let finalNode := wf.finalNode.getD ""
          match alookup st.results finalNode with
          | none => (st, .error ("Final node " ++ finalNode ++ " was not processed"))
          | some v => (st, .ok v)

/-- The value (or exception) `DAGOrchestrator.execute` produces. -/
def dagExecute (agents : String → Option StubAgent) (wf : DagWorkflow)
    (maxSteps : Nat) (inputData : Value) : Except String Value :=
  (dagExecuteRun agents wf maxSteps inputData).2

/-- The execution context the round loop of `DAGOrchestrator.execute`
produces, starting from the seeded `results` map. -/
def dagLoopRun (agents : String → Option StubAgent) (wf : DagWorkflow)
    (maxSteps : Nat) (inputData : Value) : DagState :=
  dagLoop agents inputData wf.dag maxSteps
    { results := [(wf.entryPoint.getD "", formatInput inputData)], trace := [] }

/-! ## Concrete stubs used to evaluate the theorems on closed inputs -/

/-- A `json.loads` stub that parses everything to the empty dict. -/
def jsonLoadsEmpty : String → Except String Value := fun _ => .ok (.vdict [])

/-- A provider stub that always answers with one tool-call request (for the
termination claim about the iteration budget). -/
def alwaysToolCallProvider : List Msg → List ToolSpec → Msg :=
  fun _ _ => { role := "assistant", content := "",
               toolCalls := [{ id := "call1", name := "foo", arguments := "\x7b\x7d" }] }

/-- A stub agent ignoring its input and answering a fixed string. -/
def constStrAgent (s : String) : StubAgent := fun _ => .vstr s

/-- The identity stub agent. -/
def idAgent : StubAgent := fun v => v

/-- The text an append-stub reads from its input: the string itself, or the
`content` field of a message dict. -/
def stubContent : Value → String
  | .vstr s => s
  | .vdict es =>
      match alookup es "content" with
      | some (.vstr s) => s
      | _ => ""
  | _ => ""

/-- The stub agent of §8's sequential test: appends `"|<name>"` to the input
string. -/
def appendStub (name : String) : StubAgent :=
  fun v => .vstr (stubContent v ++ "|" ++ name)

/-- Agent table `A, B, C ↦ appendStub` for the sequential test. -/
def seqStubAgents : String → Option StubAgent
  | "A" => some (appendStub "A")
  | "B" => some (appendStub "B")
  | "C" => some (appendStub "C")
  | _ => none

/-- Agent table for the sequential counterexample: `A` answers the plain
string `"x"`, `B` echoes its input. -/
def seqCexAgents : String → Option StubAgent
  | "A" => some (constStrAgent "x")
  | "B" => some idAgent
  | _ => none

/-- Agent table `A ↦ "outA", B ↦ "outB"` for the DAG examples. -/
def dagStubAgents : String → Option StubAgent
  | "A" => some (constStrAgent "outA")
  | "B" => some (constStrAgent "outB")
  | _ => none

/-- A workflow whose node `B` depends on an id that never appears in
`results`, with final node `A`: the scan rounds get exhausted with `B`
unprocessed. -/
def wfUnsatisfiableDep : DagWorkflow :=
  { dag := [("A", {}), ("B", { dependencies := ["missing"] })],
    entryPoint := some "A", finalNode := some "A" }

/-- A workflow lacking `final_node`, with one node that does execute. -/
def wfNoFinalNode : DagWorkflow :=
  { dag := [("A", {})], entryPoint := some "A", finalNode := none }

/-- `A` then `B` (with `B` depending on `A`) in scan order `[A, B]`;
the entry point `S` is not itself a node. -/
def wfChainAB : DagWorkflow :=
  { dag := [("A", { dependencies := ["S"] }), ("B", { dependencies := ["A"] })],
    entryPoint := some "S", finalNode := some "B" }

/-- The same workflow as `wfChainAB` with the scan order reversed. -/
def wfChainBA : DagWorkflow :=
  { dag := [("B", { dependencies := ["A"] }), ("A", { dependencies := ["S"] })],
    entryPoint := some "S", finalNode := some "B" }

/-- The producer node a mapping reference reads from `results`: the part
before the first dot of a dotted reference, or the whole reference. -/
def mappingSource (mapping : String) : String :=
  match splitFirstDot mapping with
  | some (sourceNode, _) => sourceNode
  | none => mapping

/-- The node ids a node's input resolution reads from `results`: the sources
of its input-mapping references when the mapping is non-empty, otherwise its
dependency list. -/
def nodeReads (node : DagNode) : List String :=
  if !node.inputMapping.isEmpty then
    node.inputMapping.map (fun q => mappingSource q.2)
  else node.dependencies

/-- Every input-mapping reference of every node of the dag names one of the
node's declared dependencies or the entry point (the condition under which a
node's input is insensitive to scan order). -/
def MappingRefsDeclared (entry : String) (dag : List (String × DagNode)) : Prop :=
  ∀ p ∈ dag, ∀ q ∈ p.2.inputMapping,
    mappingSource q.2 ∈ p.2.dependencies ∨ mappingSource q.2 = entry

/-- The full run invariant of a DAG execution context (for an entry point
that is not itself a dag node): the keys of `results` are the entry point
followed by the processed nodes in execution order; processed nodes are
pairwise distinct; the entry point still holds the seeded normalized input;
each execution snapshot's keys are the entry point plus the earlier executed
nodes; and each executed node's recorded result is its agent applied to the
input resolved from its snapshot, with the snapshot still agreeing with the
current `results` on all its keys. -/
def DagRunInv (agents : String → Option StubAgent) (dag : List (String × DagNode))
    (entry : String) (inputData : Value) (st : DagState) : Prop :=
  akeys st.results = entry :: st.processed ∧
  st.processed.Nodup ∧
  alookup st.results entry = some (formatInput inputData) ∧
  (∀ i (hi : i < st.trace.length),
    akeys (st.trace[i].snapshot) =
      entry :: ((st.trace.take i).map (fun e => e.node))) ∧
  (∀ e ∈ st.trace, ∃ node run,
    (e.node, node) ∈ dag ∧ agents e.node = some run ∧
    node.dependencies = e.deps ∧
    entry ∈ akeys e.snapshot ∧
    (∀ dep ∈ node.dependencies, dep ∈ akeys e.snapshot) ∧
    (∀ k ∈ akeys e.snapshot, alookup st.results k = alookup e.snapshot k) ∧
    alookup st.results e.node = some (run (dagNodeInput e.snapshot inputData node)))

/-- The scheduling invariant of a DAG execution context: node executions are
pairwise distinct, and each recorded execution happened with all its declared
dependencies present as keys of `results` at that moment, its dependency list
being the one declared by a node of the workflow. -/
def DagInv (dag : List (String × DagNode)) (st : DagState) : Prop :=
  st.processed.Nodup ∧
  ∀ e ∈ st.trace, (∀ dep ∈ e.deps, dep ∈ akeys e.snapshot) ∧
    ∃ node, (e.node, node) ∈ dag ∧ node.dependencies = e.deps

/-! ## Theorems -/

/-- A key is in `akeys` exactly when `alookup` finds it. -/
theorem alookup_isSome_iff (l : List (String × α)) (k : String) :
    (alookup l k).isSome = true ↔ k ∈ akeys l := by
  unfold alookup akeys
  rcases h : l.find? (fun p => p.1 = k) with _ | x
  · simp only [h, Option.map_none', Option.isSome_none, Bool.false_eq_true, false_iff]
    intro hk
    rcases List.mem_map.mp hk with ⟨x, hx, he⟩
    have h2 := List.find?_eq_none.mp h x hx
    simp [he] at h2
  · simp only [h, Option.map_some', Option.isSome_some, true_iff]
    have hx := List.find?_some h
    have hmem := List.mem_of_find?_eq_some h
    simp only [decide_eq_true_eq] at hx
    exact List.mem_map.mpr ⟨x, hmem, hx⟩

/-- C10: `_format_input` always returns a dict with `role` and `content`
keys; a dict already containing both keys is returned unchanged regardless of
the role's value or extra keys; every other value becomes
`\x7b"role": "user", "content": str(v)\x7d`; consequently it is idempotent. -/
theorem format_input_contract (v : Value) :
    (∃ es, formatInput v = .vdict es ∧
      (akeys es).contains "role" = true ∧ (akeys es).contains "content" = true) ∧
    (isMessageDict v = true → formatInput v = v) ∧
    (isMessageDict v = false →
      formatInput v = .vdict [("role", .vstr "user"), ("content", .vstr (valueToString v))]) ∧
    formatInput (formatInput v) = formatInput v := by
  cases hb : isMessageDict v
  · have hv : formatInput v =
        .vdict [("role", .vstr "user"), ("content", .vstr (valueToString v))] := by
      simp [formatInput, hb]
    refine ⟨⟨_, hv, rfl, rfl⟩, ?_, fun _ => hv, ?_⟩
    · intro ht
      simp [hb] at ht
    · rw [hv]
      rfl
  · have hv : formatInput v = v := by simp [formatInput, hb]
    refine ⟨?_, fun _ => hv, ?_, by rw [hv, hv]⟩
    · cases v with
      | vdict es =>
          simp only [isMessageDict] at hb
          rw [Bool.and_eq_true] at hb
          exact ⟨es, hv, hb.1, hb.2⟩
      | vnone => simp [isMessageDict] at hb
      | vint n => simp [isMessageDict] at hb
      | vstr s => simp [isMessageDict] at hb
    · intro hf
      simp [hb] at hf

/-- C7 counterexample: in a sequential run with stub `A` producing the plain
string `"x"`, the next agent `B` receives exactly that raw string, which is
not the normalized (`_format_input`) form of its predecessor's output: the
code never re-normalizes between agents. -/
theorem sequential_receives_raw_counterexample :
    (sequentialExecute seqCexAgents ["A", "B"] (.vstr "start")).1 =
      [formatInput (.vstr "start"), .vstr "x"] ∧
    constStrAgent "x" (formatInput (.vstr "start")) = .vstr "x" ∧
    Value.vstr "x" ≠ formatInput (.vstr "x") := by
  refine ⟨rfl, rfl, fun h => ?_⟩
  rw [show formatInput (.vstr "x") =
    .vdict [("role", .vstr "user"), ("content", .vstr "x")] from rfl] at h
  cases h

/-- C7 amended: `Sequential.execute` fails fast with the configuration error
exactly when the list is empty; the first agent receives the normalized
workflow input; each subsequent agent receives the *raw* output of its
predecessor (no re-normalization); it fails fast at the first unresolvable
id; it returns the last agent's raw output unmodified; and the §8 stub test
(`"start"` over `[A,B,C]` appending their names) yields `"start|A|B|C"`. -/
theorem sequential_execute_contract :
    (∀ agents inputData, sequentialExecute agents ([] : List String) inputData =
        ([], .error "Workflow must specify a sequence of agent IDs")) ∧
    (∀ agents agentId rest inputData, sequentialExecute agents (agentId :: rest) inputData =
        seqRun agents (agentId :: rest) (formatInput inputData) []) ∧
    (∀ agents agentId rest current received run, agents agentId = some run →
        seqRun agents (agentId :: rest) current received =
          seqRun agents rest (run current) (received ++ [current])) ∧
    (∀ agents agentId rest current received, agents agentId = none →
        seqRun agents (agentId :: rest) current received =
          (received, .error ("Agent " ++ agentId ++ " not found"))) ∧
    (∀ agents current received, seqRun agents [] current received = (received, .ok current)) ∧
    (sequentialExecute seqStubAgents ["A", "B", "C"] (.vstr "start")).2 =
      .ok (.vstr "start|A|B|C") := by
  refine ⟨fun _ _ => rfl, fun _ _ _ _ => rfl, ?_, ?_, fun _ _ _ => rfl, rfl⟩
  · intro agents agentId rest current received run h
    simp [seqRun, h]
  · intro agents agentId rest current received h
    simp [seqRun, h]

/-- C2: a tool-call request whose name is not in the active tool set yields a
Tool-role message carrying the call's id whose content is exactly
`"Error: Tool <name> not found"`, and a response carrying tool-call requests
makes the loop continue with the next iteration (appending the response and
the per-call Tool messages) rather than terminate or raise. -/
theorem unresolved_tool_call_contract (jsonLoads : String → Except String Value)
    (tools : List ToolImpl) (tc : ToolCall)
    (hnone : tools.find? (fun t => t.spec.name = tc.name) = none) :
    processToolCall jsonLoads tools tc =
      { role := "tool", toolCallId := some tc.id,
        content := "Error: Tool " ++ tc.name ++ " not found" } ∧
    ∀ (provider : List Msg → List ToolSpec → Msg) fuel iterations calls messages,
      (provider messages (tools.map (fun t => t.spec))).toolCalls ≠ [] →
      agentLoop provider jsonLoads tools (fuel + 1) iterations calls messages =
        agentLoop provider jsonLoads tools fuel (iterations + 1) (calls + 1)
          (messages ++ [provider messages (tools.map (fun t => t.spec))] ++
            (provider messages (tools.map (fun t => t.spec))).toolCalls.map
              (processToolCall jsonLoads tools)) := by
  constructor
  · simp [processToolCall, hnone]
  · intro provider fuel iterations calls messages hcalls
    rw [agentLoop]
    simp only [List.isEmpty_iff]
    rw [if_neg hcalls]

/-- C2 witness: with no registered tools, a call to `"foo"` yields exactly
`"Error: Tool foo not found"`. -/
theorem unresolved_tool_call_contract_witness :
    processToolCall jsonLoadsEmpty [] { id := "call1", name := "foo", arguments := "" } =
      { role := "tool", toolCallId := some "call1",
        content := "Error: Tool foo not found" } :=
  (unresolved_tool_call_contract jsonLoadsEmpty []
    { id := "call1", name := "foo", arguments := "" } rfl).1

/-- C3: every failure of argument parsing or capability execution for a
resolved tool call is caught and rendered as a Tool-role message with an
error description (`"Error: <e>"`), successes are stringified, the produced
message always has the Tool role and the call's id (so nothing propagates out
of `run`); and `FunctionTool.execute` raises a validation error exactly when
some required parameter name is absent from the argument payload (when all
are present it just runs the wrapped function). -/
theorem tool_failure_contract :
    (∀ jsonLoads tools tc, (processToolCall jsonLoads tools tc).role = "tool" ∧
        (processToolCall jsonLoads tools tc).toolCallId = some tc.id) ∧
    (∀ jsonLoads tools tc tool e,
        tools.find? (fun t => t.spec.name = tc.name) = some tool →
        (jsonLoads tc.arguments).bind tool.exec = .error e →
        processToolCall jsonLoads tools tc =
          { role := "tool", toolCallId := some tc.id, content := "Error: " ++ e }) ∧
    (∀ jsonLoads tools tc tool r,
        tools.find? (fun t => t.spec.name = tc.name) = some tool →
        (jsonLoads tc.arguments).bind tool.exec = .ok r →
        processToolCall jsonLoads tools tc =
          { role := "tool", toolCallId := some tc.id, content := valueToString r }) ∧
    (∀ required (func : List (String × Value) → Except String Value) parameters,
        (∃ p, p ∈ required ∧ alookup parameters p = none) →
        ∃ q, q ∈ required ∧ alookup parameters q = none ∧
          FunctionTool.execute required func parameters =
            .error ("Required parameter " ++ q ++ " missing")) ∧
    (∀ required (func : List (String × Value) → Except String Value) parameters,
        (∀ p, p ∈ required → (alookup parameters p).isSome) →
        FunctionTool.execute required func parameters = func parameters) := by
  refine ⟨?_, ?_, ?_, ?_, ?_⟩
  · intro jsonLoads tools tc
    rcases h1 : tools.find? (fun t => t.spec.name = tc.name) with _ | tool
    · simp [processToolCall, h1]
    · rcases h2 : (jsonLoads tc.arguments).bind tool.exec with e | r
      · simp [processToolCall, h1, h2]
      · simp [processToolCall, h1, h2]
  · intro jsonLoads tools tc tool e hfind hexec
    simp [processToolCall, hfind, hexec]
  · intro jsonLoads tools tc tool r hfind hexec
    simp [processToolCall, hfind, hexec]
  · intro required func parameters hmissing
    have hfind : (required.find? (fun p => (alookup parameters p).isNone)).isSome := by
      rcases hmissing with ⟨p, hp, hnone⟩
      rw [List.find?_isSome]
      exact ⟨p, hp, by simp [hnone]⟩
    rcases Option.isSome_iff_exists.mp hfind with ⟨q, hq⟩
    have hmem := List.mem_of_find?_eq_some hq
    have hqnone := List.find?_some hq
    refine ⟨q, hmem, ?_, ?_⟩
    · simpa using hqnone
    · simp [FunctionTool.execute, hq]
  · intro required func parameters hall
    have hfind : required.find? (fun p => (alookup parameters p).isNone) = none := by
      rw [List.find?_eq_none]
      intro p hp
      have h := hall p hp
      rcases halo : alookup parameters p with _ | v
      · rw [halo] at h
        simp at h
      · simp [halo]
    simp [FunctionTool.execute, hfind]

/-- C3 witness: a concrete missing required parameter produces the validation
error, applied through the general contract. -/
theorem tool_failure_contract_witness :
    ∃ q, q ∈ ["x"] ∧ alookup ([] : List (String × Value)) q = none ∧
      FunctionTool.execute ["x"] (fun _ => .ok .vnone) [] =
        .error ("Required parameter " ++ q ++ " missing") :=
  tool_failure_contract.2.2.2.1 ["x"] (fun _ => .ok .vnone) []
    ⟨"x", by simp, rfl⟩

/-- Helper for C1: under a provider that always requests tool use, the loop
consumes all its fuel, issuing one completion call per pass, and produces no
final response. -/
theorem agentLoop_all_tool_calls (provider : List Msg → List ToolSpec → Msg)
    (jsonLoads : String → Except String Value) (tools : List ToolImpl)
    (hp : ∀ ms specs, (provider ms specs).toolCalls ≠ []) :
    ∀ fuel iterations calls messages,
      (agentLoop provider jsonLoads tools fuel iterations calls messages).final = none ∧
      (agentLoop provider jsonLoads tools fuel iterations calls messages).iterations =
        iterations + fuel ∧
      (agentLoop provider jsonLoads tools fuel iterations calls messages).calls =
        calls + fuel := by
  intro fuel
  induction fuel with
  | zero => intro iterations calls messages; exact ⟨rfl, rfl, rfl⟩
  | succ n ih =>
      intro iterations calls messages
      rw [agentLoop]
      simp only [List.isEmpty_iff]
      rw [if_neg (hp messages (tools.map (fun t => t.spec)))]
      rcases ih (iterations + 1) (calls + 1)
          (messages ++ [provider messages (tools.map (fun t => t.spec))] ++
            (provider messages (tools.map (fun t => t.spec))).toolCalls.map
              (processToolCall jsonLoads tools)) with ⟨h1, h2, h3⟩
      refine ⟨h1, ?_, ?_⟩
      · rw [h2]; omega
      · rw [h3]; omega

/-- C1: with a provider stub that always returns tool-call requests and a
positive iteration budget, `run` (of both the ReAct and the function-calling
agent, whose bodies are identical) terminates after exactly `max_iterations`
loop iterations with no final response (the embedding is a total function,
so it neither loops forever nor raises); at exit the agent's iteration
counter equals `max_iterations` (hence is ≤ `max_iterations`) and equals the
number of completion calls issued to the provider. -/
theorem iteration_budget_contract (cfg : AgentConfig)
    (provider : List Msg → List ToolSpec → Msg)
    (jsonLoads : String → Except String Value) (registry : List ToolImpl)
    (toolsArg : Option (List ToolImpl)) (input : Sum String Msg) (st : AgentState)
    (hp : ∀ ms specs, (provider ms specs).toolCalls ≠ [])
    (hpos : 0 < cfg.maxIterations) :
    (reactRun cfg provider jsonLoads registry toolsArg input st).final = none ∧
    (reactRun cfg provider jsonLoads registry toolsArg input st).state.iterations =
      cfg.maxIterations ∧
    (reactRun cfg provider jsonLoads registry toolsArg input st).calls =
      cfg.maxIterations ∧
    (reactRun cfg provider jsonLoads registry toolsArg input st).state.iterations ≤
      cfg.maxIterations ∧
    (reactRun cfg provider jsonLoads registry toolsArg input st).state.iterations =
      (reactRun cfg provider jsonLoads registry toolsArg input st).calls ∧
    functionCallingRun cfg provider jsonLoads registry toolsArg input st =
      reactRun cfg provider jsonLoads registry toolsArg input st := by
  rcases agentLoop_all_tool_calls provider jsonLoads
      (match toolsArg with
       | some ts => ts
       | none => getTools registry cfg.tools) hp cfg.maxIterations 0 0
      ((if st.messages.any (fun m => m.role = "system") then st.messages
        else st.messages ++ [systemMessage cfg]) ++ [normalizeInput input])
    with ⟨h1, h2, h3⟩
  rw [Nat.zero_add] at h2 h3
  have hne : cfg.maxIterations ≠ 0 := Nat.pos_iff_ne_zero.mp hpos
  refine ⟨?_, ?_, ?_, ?_, ?_, rfl⟩
  all_goals simp only [reactRun, h1, h2, h3, if_neg hne]
  all_goals omega

/-- C1 witness: a concrete run with budget 3 issues exactly 3 completion
calls, ends with counter 3 and returns no final response. -/
theorem iteration_budget_contract_witness :
    (reactRun { systemPrompt := "sys", maxIterations := 3 } alwaysToolCallProvider
        jsonLoadsEmpty [] none (.inl "hi") initialAgentState).final = none ∧
    (reactRun { systemPrompt := "sys", maxIterations := 3 } alwaysToolCallProvider
        jsonLoadsEmpty [] none (.inl "hi") initialAgentState).state.iterations = 3 ∧
    (reactRun { systemPrompt := "sys", maxIterations := 3 } alwaysToolCallProvider
        jsonLoadsEmpty [] none (.inl "hi") initialAgentState).calls = 3 := by
  have h := iteration_budget_contract { systemPrompt := "sys", maxIterations := 3 }
    alwaysToolCallProvider jsonLoadsEmpty [] none (.inl "hi") initialAgentState
    (fun _ _ => by simp [alwaysToolCallProvider]) (by decide)
  exact ⟨h.1, h.2.1, h.2.2.1⟩

/-- C8: `reset()` leaves an agent behaviorally identical to a freshly
constructed one with the same definition: for identical deterministic
provider, `json.loads` and tool behavior, `run` from the reset state and
from the fresh state produce the same outcome for the tool-using loop
(hence Histories with identical role sequences) and the same outcome for the
conversational agent.  `reset` does not depend on the prior state, so this
covers every previously-used agent. -/
theorem reset_behavioral_equivalence (cfg : AgentConfig)
    (provider : List Msg → List ToolSpec → Msg)
    (jsonLoads : String → Except String Value) (registry : List ToolImpl)
    (toolsArg : Option (List ToolImpl)) (input : Sum String Msg)
    (cprovider : List Msg → Msg) :
    reactRun cfg provider jsonLoads registry toolsArg input (resetAgentState cfg) =
      reactRun cfg provider jsonLoads registry toolsArg input initialAgentState ∧
    ((reactRun cfg provider jsonLoads registry toolsArg input
        (resetAgentState cfg)).state.messages.map (fun m => m.role) =
      (reactRun cfg provider jsonLoads registry toolsArg input
        initialAgentState).state.messages.map (fun m => m.role)) ∧
    conversationalRun cfg cprovider input (resetAgentState cfg) =
      conversationalRun cfg cprovider input initialAgentState := by
  have hmsgs :
      (if (resetAgentState cfg).messages.any (fun m => m.role = "system") then
        (resetAgentState cfg).messages
       else (resetAgentState cfg).messages ++ [systemMessage cfg]) =
      (if initialAgentState.messages.any (fun m => m.role = "system") then
        initialAgentState.messages
       else initialAgentState.messages ++ [systemMessage cfg]) := by
    simp [resetAgentState, initialAgentState, systemMessage]
  have hreact : reactRun cfg provider jsonLoads registry toolsArg input
      (resetAgentState cfg) =
      reactRun cfg provider jsonLoads registry toolsArg input initialAgentState := by
    simp only [reactRun, hmsgs]
    rfl
  refine ⟨hreact, by rw [hreact], ?_⟩
  simp only [conversationalRun, hmsgs]
  rfl

/-- C6 counterexample: a workflow lacking a final node makes
`DAGOrchestrator.execute` raise the configuration error only *after* the
scheduling loop: node `A`'s agent has already been executed when the error
is raised. -/
theorem dag_config_error_after_agents_counterexample :
    (dagExecuteRun dagStubAgents wfNoFinalNode 3 (.vstr "go")).2 =
      .error "Workflow must specify a final node" ∧
    (dagExecuteRun dagStubAgents wfNoFinalNode 3 (.vstr "go")).1.processed = ["A"] :=
  ⟨rfl, rfl⟩

/-- C6 amended: a missing/empty node map or a missing entry point raise the
configuration error before any node's agent runs (the returned context has an
empty trace); a missing final node also raises a configuration error, but
only after the scheduling loop, whose state (with possibly executed agents)
is returned alongside. -/
theorem dag_config_error_contract (agents : String → Option StubAgent)
    (wf : DagWorkflow) (maxSteps : Nat) (inputData : Value) :
    (wf.dag.isEmpty = true → dagExecuteRun agents wf maxSteps inputData =
        ({ results := [], trace := [] }, .error "Workflow must specify a DAG structure")) ∧
    (wf.dag.isEmpty = false → optTruthy wf.entryPoint = false →
      dagExecuteRun agents wf maxSteps inputData =
        ({ results := [], trace := [] }, .error "Workflow must specify an entry point")) ∧
    (wf.dag.isEmpty = false → optTruthy wf.entryPoint = true →
      optTruthy wf.finalNode = false →
      (dagLoop agents inputData wf.dag maxSteps
        { results := [(wf.entryPoint.getD "", formatInput inputData)], trace := [] }).err =
          none →
      dagExecuteRun agents wf maxSteps inputData =
        (dagLoop agents inputData wf.dag maxSteps
          { results := [(wf.entryPoint.getD "", formatInput inputData)], trace := [] },
         .error "Workflow must specify a final node")) := by
  refine ⟨?_, ?_, ?_⟩
  · intro h1
    simp [dagExecuteRun, h1]
  · intro h1 h2
    simp [dagExecuteRun, h1, h2]
  · intro h1 h2 h3 h4
    simp [dagExecuteRun, h1, h2, h3, h4]

/-- C6 witness: the missing-final-node branch of the contract applied to the
concrete workflow of the counterexample. -/
theorem dag_config_error_contract_witness :
    dagExecuteRun dagStubAgents wfNoFinalNode 3 (.vstr "go") =
      (dagLoop dagStubAgents (.vstr "go") wfNoFinalNode.dag 3
        { results := [("A", formatInput (.vstr "go"))], trace := [] },
       .error "Workflow must specify a final node") :=
  (dag_config_error_contract dagStubAgents wfNoFinalNode 3 (.vstr "go")).2.2
    rfl rfl rfl rfl

/-- C5 counterexample: with node `B` depending on an id that is never in
`results`, the scan rounds get exhausted (`err = none` and only 1 of 2 nodes
processed, so the loop stopped on `max_steps`), yet `execute` *returns a
value* because the final node `A` is in `results` — no fatal error is
signalled. -/
theorem step_budget_result_counterexample :
    (dagExecuteRun dagStubAgents wfUnsatisfiableDep 5 (.vstr "go")).2 =
      .ok (.vstr "outA") ∧
    (dagExecuteRun dagStubAgents wfUnsatisfiableDep 5 (.vstr "go")).1.processed = ["A"] ∧
    (dagExecuteRun dagStubAgents wfUnsatisfiableDep 5 (.vstr "go")).1.err = none ∧
    wfUnsatisfiableDep.dag.length = 2 :=
  ⟨rfl, rfl, rfl, rfl⟩

/-- C5 amended: after the scan rounds end (by completing all nodes or by
exhausting `max_steps`), `execute` signals the fatal error
`"Final node <id> was not processed"` exactly when the final node is not a
key of `results`; when the final node is in `results`, its value is returned
even if `max_steps` was exhausted with other nodes unprocessed. -/
theorem step_budget_contract (agents : String → Option StubAgent)
    (wf : DagWorkflow) (maxSteps : Nat) (inputData : Value)
    (h1 : wf.dag.isEmpty = false) (h2 : optTruthy wf.entryPoint = true)
    (h3 : optTruthy wf.finalNode = true)
    (h4 : (dagLoop agents inputData wf.dag maxSteps
      { results := [(wf.entryPoint.getD "", formatInput inputData)], trace := [] }).err =
        none) :
    (alookup (dagLoop agents inputData wf.dag maxSteps
        { results := [(wf.entryPoint.getD "", formatInput inputData)], trace := [] }).results
        (wf.finalNode.getD "") = none →
      (dagExecuteRun agents wf maxSteps inputData).2 =
        .error ("Final node " ++ wf.finalNode.getD "" ++ " was not processed")) ∧
    (∀ v, alookup (dagLoop agents inputData wf.dag maxSteps
        { results := [(wf.entryPoint.getD "", formatInput inputData)], trace := [] }).results
        (wf.finalNode.getD "") = some v →
      (dagExecuteRun agents wf maxSteps inputData).2 = .ok v) := by
  constructor
  · intro h5
    simp [dagExecuteRun, h1, h2, h3, h4, h5]
  · intro v h5
    simp [dagExecuteRun, h1, h2, h3, h4, h5]

/-- C5 witness: the contract applied to the counterexample's workflow, where
the budget runs out with `B` unprocessed but final node `A` has a result. -/
theorem step_budget_contract_witness :
    (dagExecuteRun dagStubAgents wfUnsatisfiableDep 5 (.vstr "go")).2 =
      .ok (.vstr "outA") :=
  (step_budget_contract dagStubAgents wfUnsatisfiableDep 5 (.vstr "go")
    rfl rfl rfl rfl).2 (.vstr "outA") rfl

/-- Processing one scan entry preserves the scheduling invariant. -/
theorem dagProcessNode_inv (agents : String → Option StubAgent) (inputData : Value)
    (dag : List (String × DagNode)) (st : DagState) (nodeId : String) (node : DagNode)
    (hmem : (nodeId, node) ∈ dag) (hinv : DagInv dag st) :
    DagInv dag (dagProcessNode agents inputData st nodeId node) := by
  unfold dagProcessNode
  split
  · exact hinv
  · next herr =>
    split
    · exact hinv
    · next hproc =>
      split
      · next h3 =>
        split
        · exact ⟨hinv.1, hinv.2⟩
        · next run heq =>
          constructor
          · show ((st.trace ++ [_]).map _).Nodup
            rw [List.map_append, List.nodup_append]
            refine ⟨hinv.1, List.nodup_singleton _, fun a ha hb => ?_⟩
            simp only [List.map_cons, List.map_nil, List.mem_singleton] at hb
            apply hproc
            show (st.trace.map (fun e => e.node)).contains nodeId = true
            rw [List.contains_eq_any_beq, List.any_eq_true]
            exact ⟨a, ha, by simp [hb]⟩
          · intro e he
            rcases List.mem_append.mp he with he | he
            · exact hinv.2 e he
            · simp only [List.mem_singleton] at he
              subst he
              refine ⟨?_, node, hmem, rfl⟩
              intro dep hdep
              have hall := List.all_eq_true.mp h3 dep hdep
              simp only [decide_eq_true_eq] at hall
              exact (alookup_isSome_iff st.results dep).mp hall
      · exact hinv

/-- One scan round over entries of `dag` preserves the scheduling invariant. -/
theorem dagPass_inv (agents : String → Option StubAgent) (inputData : Value)
    (dag : List (String × DagNode)) :
    ∀ (rest : List (String × DagNode)) (st : DagState),
      (∀ p ∈ rest, p ∈ dag) → DagInv dag st →
      DagInv dag (dagPass agents inputData rest st) := by
  intro rest
  induction rest with
  | nil => intro st _ hinv; exact hinv
  | cons p rest ih =>
      intro st hsub hinv
      rcases p with ⟨nodeId, node⟩
      exact ih _ (fun q hq => hsub q (List.mem_cons_of_mem _ hq))
        (dagProcessNode_inv agents inputData dag st nodeId node
          (hsub _ (List.mem_cons_self _ _)) hinv)

/-- The round loop preserves the scheduling invariant. -/
theorem dagLoop_inv (agents : String → Option StubAgent) (inputData : Value)
    (dag : List (String × DagNode)) :
    ∀ (fuel : Nat) (st : DagState), DagInv dag st →
      DagInv dag (dagLoop agents inputData dag fuel st) := by
  intro fuel
  induction fuel with
  | zero => intro st h; exact h
  | succ n ih =>
      intro st h
      rw [dagLoop]
      split
      · exact ih _ (dagPass_inv agents inputData dag dag st (fun _ hp => hp) h)
      · exact h

/-- The execution context `DAGOrchestrator.execute` ends with is either the
untouched empty context (configuration errors raised before the loop) or the
context the round loop produces from the seeded one. -/
theorem dagExecuteRun_fst (agents : String → Option StubAgent) (wf : DagWorkflow)
    (maxSteps : Nat) (inputData : Value) :
    (dagExecuteRun agents wf maxSteps inputData).1 =
      ({ results := [], trace := [] } : DagState) ∨
    (dagExecuteRun agents wf maxSteps inputData).1 =
      dagLoop agents inputData wf.dag maxSteps
        { results := [(wf.entryPoint.getD "", formatInput inputData)], trace := [] } := by
  unfold dagExecuteRun
  split
  · left; rfl
  · split
    · left; rfl
    · dsimp only
      split
      · right; rfl
      · split
        · right; rfl
        · split
          · right; rfl
          · right; rfl

/-- C4: in every `DAGOrchestrator.execute` run, each node's agent is executed
at most once (the executed node ids are pairwise distinct), and every
execution happened with all of the node's declared dependencies already
present as keys of `results` at that moment. -/
theorem dag_scheduling_invariant (agents : String → Option StubAgent)
    (wf : DagWorkflow) (maxSteps : Nat) (inputData : Value) :
    ((dagExecuteRun agents wf maxSteps inputData).1.processed).Nodup ∧
    ∀ e ∈ (dagExecuteRun agents wf maxSteps inputData).1.trace,
      (∀ dep ∈ e.deps, dep ∈ akeys e.snapshot) ∧
      ∃ node, (e.node, node) ∈ wf.dag ∧ node.dependencies = e.deps := by
  have hinit : DagInv wf.dag
      { results := [(wf.entryPoint.getD "", formatInput inputData)], trace := [] } :=
    ⟨List.nodup_nil, fun e he => absurd he (List.not_mem_nil e)⟩
  rcases dagExecuteRun_fst agents wf maxSteps inputData with h | h
  · rw [h]
    exact ⟨List.nodup_nil, fun e he => absurd he (List.not_mem_nil e)⟩
  · rw [h]
    exact dagLoop_inv agents inputData wf.dag maxSteps _ hinit

/-- C9 counterexample: two runs over the same dependency graph, same stub
agents and same input, differing only in the scan order of the node map
(`[A, B]` versus `[B, A]`, a permutation), produce different final outputs:
with `max_steps = 1`, scanning `A` before `B` lets `B` see `A`'s result in
the same round and succeed, while the reversed order exhausts the budget and
raises. -/
theorem dag_scan_order_counterexample :
    wfChainBA.dag.Perm wfChainAB.dag ∧
    wfChainBA.entryPoint = wfChainAB.entryPoint ∧
    wfChainBA.finalNode = wfChainAB.finalNode ∧
    dagExecute dagStubAgents wfChainAB 1 (.vstr "go") = .ok (.vstr "outB") ∧
    dagExecute dagStubAgents wfChainBA 1 (.vstr "go") =
      .error "Final node B was not processed" :=
  ⟨List.Perm.swap _ _ _, rfl, rfl, rfl, rfl⟩

/-- A key not present in an association list is looked up as `none`. -/
theorem alookup_eq_none_of_not_mem {l : List (String × α)} {k : String}
    (h : k ∉ akeys l) : alookup l k = none := by
  rcases ha : alookup l k with _ | v
  · rfl
  · exact absurd ((alookup_isSome_iff l k).mp (by simp [ha])) h

/-- Inserting a fresh key appends the binding at the end. -/
theorem ainsert_fresh {l : List (String × α)} {k : String} (v : α)
    (h : k ∉ akeys l) : ainsert l k v = l ++ [(k, v)] := by
  unfold ainsert
  rw [if_neg]
  intro hs
  apply h
  rw [← alookup_isSome_iff]
  rcases Option.isSome_iff_exists.mp hs with ⟨p, hp⟩
  simp [alookup, hp]

/-- Appending a binding for a different key does not change a lookup. -/
theorem alookup_append_ne {l : List (String × α)} {k k' : String} (v : α)
    (h : k ≠ k') : alookup (l ++ [(k', v)]) k = alookup l k := by
  induction l with
  | nil => simp [alookup, List.find?_cons, h, Ne.symm h]
  | cons p rest ih =>
      by_cases hp : p.1 = k
      · simp [alookup, List.find?_cons, hp]
      · simp only [List.cons_append]
        simp [alookup, List.find?_cons, hp] at ih ⊢
        exact ih

/-- Appending a binding for a fresh key makes it the lookup result. -/
theorem alookup_append_fresh {l : List (String × α)} {k : String} (v : α)
    (h : k ∉ akeys l) : alookup (l ++ [(k, v)]) k = some v := by
  induction l with
  | nil => simp [alookup, List.find?_cons]
  | cons p rest ih =>
      simp only [akeys, List.map_cons, List.mem_cons] at h
      push_neg at h
      simp only [List.cons_append]
      rw [show alookup ((p :: (rest ++ [(k, v)]))) k =
        if p.1 = k then some p.2 else alookup (rest ++ [(k, v)]) k from by
          by_cases hp : p.1 = k
          · simp [alookup, List.find?_cons, hp]
          · simp [alookup, List.find?_cons, hp]]
      rw [if_neg (fun hp => h.1 hp.symm)]
      exact ih (by simpa [akeys] using h.2)

/-- The keys of an appended binding list. -/
theorem akeys_append (l l' : List (String × α)) :
    akeys (l ++ l') = akeys l ++ akeys l' := by
  simp [akeys]

/-- `resolveMapping` depends only on the lookups of the mapping's source
nodes. -/
theorem resolveMapping_congr {r1 r2 : List (String × Value)}
    (m : List (String × String))
    (h : ∀ q ∈ m, alookup r1 (mappingSource q.2) = alookup r2 (mappingSource q.2)) :
    resolveMapping r1 m = resolveMapping r2 m := by
  induction m with
  | nil => rfl
  | cons q rest ih =>
      have hq := h q (List.mem_cons_self q rest)
      have htail := ih (fun p hp => h p (List.mem_cons_of_mem _ hp))
      rcases q with ⟨inputKey, mapping⟩
      simp only [mappingSource] at hq
      rcases hsplit : splitFirstDot mapping with _ | ⟨sourceNode, sourceKey⟩
      · simp only [hsplit] at hq
        simp only [resolveMapping, hsplit, hq, htail]
      · simp only [hsplit] at hq
        simp only [resolveMapping, hsplit, hq, htail]

/-- With duplicate-free keys, the value bound to a key is unique. -/
theorem mem_unique_of_nodup_keys {l : List (String × α)} (hnd : (akeys l).Nodup)
    {k : String} {a b : α} (ha : (k, a) ∈ l) (hb : (k, b) ∈ l) : a = b := by
  induction l with
  | nil => cases ha
  | cons p rest ih =>
      simp only [akeys, List.map_cons, List.nodup_cons] at hnd
      rcases List.mem_cons.mp ha with ha | ha <;>
        rcases List.mem_cons.mp hb with hb | hb
      · rw [← ha] at hb
        exact (Prod.mk.injEq _ _ _ _ ▸ hb).2.symm
      · exfalso
        apply hnd.1
        rw [← ha]
        exact List.mem_map.mpr ⟨(k, b), hb, rfl⟩
      · exfalso
        apply hnd.1
        rw [← hb]
        exact List.mem_map.mpr ⟨(k, a), ha, rfl⟩
      · exact ih (by simpa [akeys] using hnd.2) ha hb

/-- A node's resolved input depends only on the lookups of the node ids it
reads. -/
theorem dagNodeInput_congr {r1 r2 : List (String × Value)} (inputData : Value)
    (node : DagNode)
    (h : ∀ s ∈ nodeReads node, alookup r1 s = alookup r2 s) :
    dagNodeInput r1 inputData node = dagNodeInput r2 inputData node := by
  unfold nodeReads at h
  unfold dagNodeInput
  cases hm : node.inputMapping.isEmpty with
  | true =>
      rw [hm] at h
      simp only [hm, Bool.not_true, Bool.false_eq_true, if_false]
      rw [List.filterMap_congr (fun dep hdep => h dep (by simpa using hdep))]
  | false =>
      rw [hm] at h
      simp only [hm, Bool.not_false, if_true]
      rw [resolveMapping_congr node.inputMapping
        (fun q hq => h (mappingSource q.2) (by
          simp only [Bool.not_false, if_true]
          exact List.mem_map.mpr ⟨q, hq, rfl⟩))]

/-- Processing one scan entry preserves the full run invariant, for a
workflow node distinct from the entry point. -/
theorem dagProcessNode_runInv (agents : String → Option StubAgent)
    (dag : List (String × DagNode)) (entry : String) (inputData : Value)
    (st : DagState) (nodeId : String) (node : DagNode)
    (hne : nodeId ≠ entry) (hmem : (nodeId, node) ∈ dag)
    (hinv : DagRunInv agents dag entry inputData st) :
    DagRunInv agents dag entry inputData
      (dagProcessNode agents inputData st nodeId node) := by
  obtain ⟨hkeys, hnodup, hseed, hsnap, htrace⟩ := hinv
  unfold dagProcessNode
  split
  · exact ⟨hkeys, hnodup, hseed, hsnap, htrace⟩
  · next herr =>
    split
    · exact ⟨hkeys, hnodup, hseed, hsnap, htrace⟩
    · next hproc =>
      split
      · next h3 =>
        split
        · exact ⟨hkeys, hnodup, hseed, hsnap, htrace⟩
        · next run heq =>
          have hfreshproc : nodeId ∉ st.processed := by
            intro hmp
            apply hproc
            rw [List.contains_eq_any_beq, List.any_eq_true]
            exact ⟨nodeId, hmp, by simp⟩
          have hfresh : nodeId ∉ akeys st.results := by
            rw [hkeys]
            intro hmem'
            rcases List.mem_cons.mp hmem' with h | h
            · exact hne h
            · exact hfreshproc h
          have hins : ainsert st.results nodeId
              (run (dagNodeInput st.results inputData node)) =
              st.results ++ [(nodeId, run (dagNodeInput st.results inputData node))] :=
            ainsert_fresh _ hfresh
          have hdepmem : ∀ dep ∈ node.dependencies, dep ∈ akeys st.results := by
            intro dep hdep
            have hall := List.all_eq_true.mp h3 dep hdep
            simp only [decide_eq_true_eq] at hall
            exact (alookup_isSome_iff st.results dep).mp hall
          refine ⟨?_, ?_, ?_, ?_, ?_⟩
          · show akeys (ainsert st.results nodeId _) = _
            rw [hins, akeys_append, hkeys]
            simp [DagState.processed, akeys]
          · show ((st.trace ++ [_]).map _).Nodup
            rw [List.map_append, List.nodup_append]
            refine ⟨hnodup, List.nodup_singleton _, fun a ha hb => ?_⟩
            simp only [List.map_cons, List.map_nil, List.mem_singleton] at hb
            subst hb
            exact hfreshproc ha
          · show alookup (ainsert st.results nodeId _) entry = _
            rw [hins, alookup_append_ne _ (Ne.symm hne)]
            exact hseed
          · intro i hi
            simp only [List.length_append, List.length_singleton] at hi
            by_cases hlt : i < st.trace.length
            · rw [List.getElem_append_left hlt]
              rw [List.take_append_eq_append_take,
                Nat.sub_eq_zero_of_le (Nat.le_of_lt hlt), List.take_zero,
                List.append_nil]
              exact hsnap i hlt
            · have hieq : i = st.trace.length := by omega
              subst hieq
              rw [List.getElem_concat_length _ _ _ rfl]
              rw [List.take_left' rfl]
              exact hkeys
          · intro e he
            rcases List.mem_append.mp he with he | he
            · obtain ⟨nodeE, runE, hm, ha, hd, hent, hdeps, hagree, hval⟩ :=
                htrace e he
              have hmemproc : e.node ∈ st.processed :=
                List.mem_map.mpr ⟨e, he, rfl⟩
              have hene : e.node ≠ nodeId := fun h => hfreshproc (h ▸ hmemproc)
              refine ⟨nodeE, runE, hm, ha, hd, hent, hdeps, ?_, ?_⟩
              · intro k hk
                have hsome : (alookup e.snapshot k).isSome :=
                  (alookup_isSome_iff _ _).mpr hk
                have hsome' : (alookup st.results k).isSome := by
                  rw [hagree k hk]; exact hsome
                have hkmem := (alookup_isSome_iff _ _).mp hsome'
                have hkne : k ≠ nodeId := fun h => hfresh (h ▸ hkmem)
                show alookup (ainsert st.results nodeId _) k = _
                rw [hins, alookup_append_ne _ hkne]
                exact hagree k hk
              · show alookup (ainsert st.results nodeId _) e.node = _
                rw [hins, alookup_append_ne _ hene]
                exact hval
            · simp only [List.mem_singleton] at he
              subst he
              refine ⟨node, run, hmem, heq, rfl, ?_, hdepmem, ?_, ?_⟩
              · show entry ∈ akeys st.results
                rw [hkeys]
                exact List.mem_cons_self _ _
              · intro k hk
                have hkne : k ≠ nodeId := fun h => hfresh (h ▸ hk)
                show alookup (ainsert st.results nodeId _) k = _
                rw [hins, alookup_append_ne _ hkne]
              · show alookup (ainsert st.results nodeId _) nodeId = _
                rw [hins]
                exact alookup_append_fresh _ hfresh
      · exact ⟨hkeys, hnodup, hseed, hsnap, htrace⟩

/-- One scan round preserves the full run invariant, for an entry point that
is not a workflow node. -/
theorem dagPass_runInv (agents : String → Option StubAgent)
    (dag : List (String × DagNode)) (entry : String) (inputData : Value)
    (hentry : entry ∉ akeys dag) :
    ∀ (rest : List (String × DagNode)) (st : DagState),
      (∀ p ∈ rest, p ∈ dag) → DagRunInv agents dag entry inputData st →
      DagRunInv agents dag entry inputData (dagPass agents inputData rest st) := by
  intro rest
  induction rest with
  | nil => intro st _ hinv; exact hinv
  | cons p rest ih =>
      intro st hsub hinv
      rcases p with ⟨nodeId, node⟩
      have hpmem := hsub _ (List.mem_cons_self _ _)
      have hne : nodeId ≠ entry := by
        intro h
        apply hentry
        rw [← h]
        exact List.mem_map.mpr ⟨(nodeId, node), hpmem, rfl⟩
      exact ih _ (fun q hq => hsub q (List.mem_cons_of_mem _ hq))
        (dagProcessNode_runInv agents dag entry inputData st nodeId node
          hne hpmem hinv)

/-- The round loop preserves the full run invariant. -/
theorem dagLoop_runInv (agents : String → Option StubAgent)
    (dag : List (String × DagNode)) (entry : String) (inputData : Value)
    (hentry : entry ∉ akeys dag) :
    ∀ (fuel : Nat) (st : DagState), DagRunInv agents dag entry inputData st →
      DagRunInv agents dag entry inputData (dagLoop agents inputData dag fuel st) := by
  intro fuel
  induction fuel with
  | zero => intro st h; exact h
  | succ n ih =>
      intro st h
      rw [dagLoop]
      split
      · exact ih _ (dagPass_runInv agents dag entry inputData hentry dag st
          (fun _ hp => hp) h)
      · exact h

/-- The full run invariant holds for the loop's result on the seeded state. -/
theorem dagLoopRun_inv (agents : String → Option StubAgent) (wf : DagWorkflow)
    (maxSteps : Nat) (inputData : Value)
    (hentry : wf.entryPoint.getD "" ∉ akeys wf.dag) :
    DagRunInv agents wf.dag (wf.entryPoint.getD "") inputData
      (dagLoopRun agents wf maxSteps inputData) := by
  apply dagLoop_runInv agents wf.dag _ inputData hentry
  refine ⟨rfl, List.nodup_nil, ?_, ?_, ?_⟩
  · simp [alookup]
  · intro i hi
    exact absurd hi (by simp)
  · intro e he
    exact absurd he (List.not_mem_nil e)

/-- Two completed runs of the round loop over permuted scan orders agree on
the lookup of the entry point and of every node the first run executed
(by induction along the first run's execution order). -/
theorem dag_agree_aux (agents : String → Option StubAgent)
    (dag1 dag2 : List (String × DagNode)) (entry : String) (inputData : Value)
    (F1 F2 : DagState)
    (hperm : dag2.Perm dag1) (hnd : (akeys dag1).Nodup)
    (hrefs : MappingRefsDeclared entry dag1)
    (hinv1 : DagRunInv agents dag1 entry inputData F1)
    (hinv2 : DagRunInv agents dag2 entry inputData F2)
    (hc2 : ∀ k ∈ akeys dag1, k ∈ F2.processed) :
    ∀ i, i ≤ F1.trace.length →
      ∀ n, n ∈ entry :: ((F1.trace.take i).map (fun e => e.node)) →
        alookup F1.results n = alookup F2.results n := by
  obtain ⟨hkeys1, hnodup1, hseed1, hsnap1, htrace1⟩ := hinv1
  obtain ⟨hkeys2, hnodup2, hseed2, hsnap2, htrace2⟩ := hinv2
  intro i
  induction i with
  | zero =>
      intro _ n hn
      simp only [List.take_zero, List.map_nil, List.mem_singleton] at hn
      subst hn
      rw [hseed1, hseed2]
  | succ i ih =>
      intro hle n hn
      have hi : i < F1.trace.length := by omega
      have hihle : i ≤ F1.trace.length := by omega
      have htake : F1.trace.take (i + 1) = F1.trace.take i ++ [F1.trace[i]] := by
        rw [← List.take_concat_get _ _ hi, List.concat_eq_append]
      rw [htake] at hn
      simp only [List.map_append, List.map_cons, List.map_nil, List.mem_cons,
        List.mem_append, List.mem_singleton, List.mem_nil_iff, or_false] at hn
      rcases hn with hn | hn | hn
      · exact ih hihle n (by simp [hn])
      · exact ih hihle n (List.mem_cons_of_mem _ hn)
      · -- n is the node executed at position i of run 1
        subst hn
        have he1 : F1.trace[i] ∈ F1.trace := List.getElem_mem _
        obtain ⟨cfg, run, hm1, ha1, hd1, hent1, hdeps1, hagree1, hval1⟩ :=
          htrace1 _ he1
        have hkey : (F1.trace[i]).node ∈ akeys dag1 :=
          List.mem_map.mpr ⟨((F1.trace[i]).node, cfg), hm1, rfl⟩
        rcases List.mem_map.mp (hc2 _ hkey) with ⟨e2, he2, he2n⟩
        obtain ⟨cfg2, run2, hm2, ha2, hd2, hent2, hdeps2, hagree2, hval2⟩ :=
          htrace2 e2 he2
        rw [he2n] at hm2 ha2 hval2
        have hcfg : cfg2 = cfg :=
          mem_unique_of_nodup_keys hnd (hperm.mem_iff.mp hm2) hm1
        have hrun : run2 = run := Option.some.inj (ha2.symm.trans ha1)
        rw [hcfg, hrun] at hval2
        have hreads : ∀ s ∈ nodeReads cfg,
            alookup (F1.trace[i]).snapshot s = alookup e2.snapshot s := by
          intro s hs
          have hsde : s ∈ cfg.dependencies ∨ s = entry := by
            unfold nodeReads at hs
            cases hmap : cfg.inputMapping.isEmpty
            · rw [hmap] at hs
              simp only [Bool.not_false, if_true] at hs
              rcases List.mem_map.mp hs with ⟨q, hq, hqs⟩
              rw [← hqs]
              exact hrefs ((F1.trace[i]).node, cfg) hm1 q hq
            · rw [hmap] at hs
              simp only [Bool.not_true, Bool.false_eq_true, if_false] at hs
              exact Or.inl hs
          rcases hsde with hdep | hse
          · have hs1 : s ∈ akeys (F1.trace[i]).snapshot := hdeps1 s hdep
            have heqa : alookup (F1.trace[i]).snapshot s = alookup F1.results s :=
              (hagree1 s hs1).symm
            rw [hsnap1 i hi] at hs1
            have hmid : alookup F1.results s = alookup F2.results s :=
              ih hihle s hs1
            have hs2 : s ∈ akeys e2.snapshot := hdeps2 s (hcfg ▸ hdep)
            have heqb : alookup F2.results s = alookup e2.snapshot s :=
              hagree2 s hs2
            rw [heqa, hmid, heqb]
          · subst hse
            have heqa : alookup (F1.trace[i]).snapshot s = alookup F1.results s :=
              (hagree1 s hent1).symm
            have heqb : alookup F2.results s = alookup e2.snapshot s :=
              hagree2 s hent2
            rw [heqa, hseed1, ← heqb, hseed2]
        have hinput : dagNodeInput (F1.trace[i]).snapshot inputData cfg =
            dagNodeInput e2.snapshot inputData cfg :=
          dagNodeInput_congr inputData cfg hreads
        rw [hval1, hval2, hinput]

/-- Every processed node of an invariant-satisfying context is a workflow
node. -/
theorem processed_subset_keys (agents : String → Option StubAgent)
    (dag : List (String × DagNode)) (entry : String) (inputData : Value)
    (st : DagState) (hinv : DagRunInv agents dag entry inputData st) :
    ∀ k ∈ st.processed, k ∈ akeys dag := by
  intro k hk
  rcases List.mem_map.mp hk with ⟨e, he, hen⟩
  obtain ⟨nodeE, runE, hm, _⟩ := hinv.2.2.2.2 e he
  rw [← hen]
  exact List.mem_map.mpr ⟨(e.node, nodeE), hm, rfl⟩

/-- Two completed runs of the round loop over permuted scan orders produce
results maps with identical lookups everywhere. -/
theorem dag_results_agree (agents : String → Option StubAgent)
    (dag1 dag2 : List (String × DagNode)) (entry : String) (inputData : Value)
    (F1 F2 : DagState)
    (hperm : dag2.Perm dag1) (hnd : (akeys dag1).Nodup)
    (hrefs : MappingRefsDeclared entry dag1)
    (hinv1 : DagRunInv agents dag1 entry inputData F1)
    (hinv2 : DagRunInv agents dag2 entry inputData F2)
    (hc1 : ∀ k ∈ akeys dag1, k ∈ F1.processed)
    (hc2 : ∀ k ∈ akeys dag1, k ∈ F2.processed) :
    ∀ k, alookup F1.results k = alookup F2.results k := by
  intro k
  by_cases hk : k ∈ akeys F1.results
  · rw [hinv1.1] at hk
    have hk' : k ∈ entry :: ((F1.trace.take F1.trace.length).map
        (fun e => e.node)) := by
      rw [List.take_length]
      exact hk
    exact dag_agree_aux agents dag1 dag2 entry inputData F1 F2 hperm hnd hrefs
      hinv1 hinv2 hc2 F1.trace.length (Nat.le_refl _) k hk'
  · have h1 : alookup F1.results k = none := alookup_eq_none_of_not_mem hk
    have h2 : alookup F2.results k = none := by
      apply alookup_eq_none_of_not_mem
      rw [hinv2.1]
      intro hmem
      apply hk
      rw [hinv1.1]
      rcases List.mem_cons.mp hmem with h | h
      · exact h ▸ List.mem_cons_self _ _
      · have hkd2 : k ∈ akeys dag2 :=
          processed_subset_keys agents dag2 entry inputData F2 hinv2 k h
        have hkd1 : k ∈ akeys dag1 :=
          (hperm.map (fun p => p.1)).mem_iff.mp hkd2
        exact List.mem_cons_of_mem _ (hc1 k hkd1)
    rw [h1, h2]

/-- The outcome of `DAGOrchestrator.execute` when the configuration checks
pass and the loop raised nothing: the final-node lookup of the loop's
results decides it. -/
theorem dagExecute_of_loop (agents : String → Option StubAgent)
    (wf : DagWorkflow) (maxSteps : Nat) (inputData : Value)
    (h1 : wf.dag.isEmpty = false) (h2 : optTruthy wf.entryPoint = true)
    (h3 : (dagLoopRun agents wf maxSteps inputData).err = none) :
    dagExecute agents wf maxSteps inputData =
      (if optTruthy wf.finalNode = false then
        .error "Workflow must specify a final node"
      else
        match alookup (dagLoopRun agents wf maxSteps inputData).results
            (wf.finalNode.getD "") with
        | none => .error ("Final node " ++ wf.finalNode.getD "" ++
            " was not processed")
        | some v => .ok v) := by
  unfold dagExecute dagExecuteRun
  rw [if_neg (by simp [h1]), if_neg (by simp [h2])]
  simp only [dagLoopRun] at h3
  cases hft : optTruthy wf.finalNode
  · simp [h3, hft]
  · simp only [h3, hft, Bool.true_eq_false, if_false]
    rcases hlook : alookup (dagLoop agents inputData wf.dag maxSteps
        { results := [(wf.entryPoint.getD "", formatInput inputData)],
          trace := [] }).results (wf.finalNode.getD "") with _ | v
    · simp [dagLoopRun, hlook]
    · simp [dagLoopRun, hlook]

/-- An empty node map raises the structure configuration error. -/
theorem dagExecute_empty_dag (agents : String → Option StubAgent)
    (wf : DagWorkflow) (maxSteps : Nat) (inputData : Value)
    (h : wf.dag.isEmpty = true) :
    dagExecute agents wf maxSteps inputData =
      .error "Workflow must specify a DAG structure" := by
  simp [dagExecute, dagExecuteRun, h]

/-- A falsy entry point raises the entry-point configuration error. -/
theorem dagExecute_no_entry (agents : String → Option StubAgent)
    (wf : DagWorkflow) (maxSteps : Nat) (inputData : Value)
    (h1 : wf.dag.isEmpty = false) (h2 : optTruthy wf.entryPoint = false) :
    dagExecute agents wf maxSteps inputData =
      .error "Workflow must specify an entry point" := by
  simp [dagExecute, dagExecuteRun, h1, h2]

/-- C9 amended: the final output of `DAGOrchestrator.execute` is independent
of the scan order of the node map, provided (forced by the counterexamples)
that both runs process every node within their step budgets, that every
input-mapping reference names a declared dependency of its node or the entry
point, and that the entry point is not itself a node of the dag (otherwise
same-round visibility or the seed value being overwritten make the output
scan-order dependent). -/
theorem dag_scan_order_independence (agents : String → Option StubAgent)
    (wf1 wf2 : DagWorkflow) (maxSteps1 maxSteps2 : Nat) (inputData : Value)
    (hperm : wf2.dag.Perm wf1.dag)
    (hentry : wf2.entryPoint = wf1.entryPoint)
    (hfinal : wf2.finalNode = wf1.finalNode)
    (hnd : (akeys wf1.dag).Nodup)
    (henot : wf1.entryPoint.getD "" ∉ akeys wf1.dag)
    (hrefs : MappingRefsDeclared (wf1.entryPoint.getD "") wf1.dag)
    (herr1 : (dagLoopRun agents wf1 maxSteps1 inputData).err = none)
    (herr2 : (dagLoopRun agents wf2 maxSteps2 inputData).err = none)
    (hc1 : ∀ k ∈ akeys wf1.dag,
      k ∈ (dagLoopRun agents wf1 maxSteps1 inputData).processed)
    (hc2 : ∀ k ∈ akeys wf1.dag,
      k ∈ (dagLoopRun agents wf2 maxSteps2 inputData).processed) :
    dagExecute agents wf1 maxSteps1 inputData =
      dagExecute agents wf2 maxSteps2 inputData := by
  cases hempty : wf1.dag.isEmpty
  · -- both workflows have nodes
    have hempty2 : wf2.dag.isEmpty = false := by
      cases h2 : wf2.dag.isEmpty
      · rfl
      · exfalso
        have hnil2 : wf2.dag = [] := List.isEmpty_iff.mp (by simp [h2])
        have hnil1 : wf1.dag = [] := (List.Perm.nil_eq (hnil2 ▸ hperm)).symm
        rw [hnil1] at hempty
        simp at hempty
    cases het : optTruthy wf1.entryPoint
    · -- both raise the entry-point configuration error
      have het2 : optTruthy wf2.entryPoint = false := by rw [hentry]; exact het
      rw [dagExecute_no_entry agents wf1 maxSteps1 inputData hempty het,
        dagExecute_no_entry agents wf2 maxSteps2 inputData hempty2 het2]
    · have het2 : optTruthy wf2.entryPoint = true := by rw [hentry]; exact het
      have henot2 : wf2.entryPoint.getD "" ∉ akeys wf2.dag := by
        rw [hentry]
        intro h
        exact henot ((hperm.map (fun p => p.1)).mem_iff.mp h)
      have hinv1 := dagLoopRun_inv agents wf1 maxSteps1 inputData henot
      have hinv2 := dagLoopRun_inv agents wf2 maxSteps2 inputData henot2
      rw [hentry] at hinv2
      have hagree := dag_results_agree agents wf1.dag wf2.dag
        (wf1.entryPoint.getD "") inputData
        (dagLoopRun agents wf1 maxSteps1 inputData)
        (dagLoopRun agents wf2 maxSteps2 inputData)
        hperm hnd hrefs hinv1 hinv2 hc1 hc2
      rw [dagExecute_of_loop agents wf1 maxSteps1 inputData hempty het herr1,
        dagExecute_of_loop agents wf2 maxSteps2 inputData hempty2 het2 herr2,
        hfinal, hagree]
  · -- both workflows are empty: the same configuration error
    have hempty2 : wf2.dag.isEmpty = true := by
      have hnil1 : wf1.dag = [] := List.isEmpty_iff.mp (by simp [hempty])
      have hnil2 : wf2.dag = [] := List.Perm.eq_nil (hnil1 ▸ hperm)
      simp [hnil2]
    rw [dagExecute_empty_dag agents wf1 maxSteps1 inputData hempty,
      dagExecute_empty_dag agents wf2 maxSteps2 inputData hempty2]

/-- C9 witness: the two permuted workflows of the counterexample, given
enough budget for both to complete (`max_steps` 1 and 2 respectively),
produce identical outputs. -/
theorem dag_scan_order_independence_witness :
    dagExecute dagStubAgents wfChainAB 1 (.vstr "go") =
      dagExecute dagStubAgents wfChainBA 2 (.vstr "go") :=
  dag_scan_order_independence dagStubAgents wfChainAB wfChainBA 1 2 (.vstr "go")
    (List.Perm.swap _ _ _) rfl rfl (by decide) (by decide)
    (by intro p hp q hq; fin_cases hp <;> simp at hq)
    rfl rfl (by decide) (by decide)

end AgentFlow
